import Mathlib

/-!
Verification of goblip, a polling file-watcher that restarts a child process
when watched files change.  The development shallowly embeds the two core
components of the Go sources:

* `internal/watcher/watcher.go` — extension parsing (`ParseExts`), directory
  scanning (`scanFiles`), snapshot comparison (`changed`), the two watcher
  constructors and the control-loop step;
* `internal/runner/runner.go` — the process supervisor (`Start`, `Stop`),
  port extraction (`extractPort`) and the port-release wait loop.

Go strings are modelled as `List Char` so that every string operation is a
structural, kernel-computable function.  Go `map` values are modelled as
association lists with distinct keys; `time.Time` values and durations are
modelled as `Nat`/`Int` (milliseconds where a unit matters).  Side-effecting
operations (signals, kills, sleeps, spawns) are modelled as explicit event
traces so that ordering and bounded-shutdown properties can be stated.
-/

set_option autoImplicit false

namespace Goblip

/-- Go string literal, embedded as its list of characters. -/
def gs (s : String) : List Char := s.data

/-- Go `strings.Split` with a one-character separator. -/
def splitChar (sep : Char) : List Char → List (List Char)
  | [] => [[]]
  | c :: cs =>
    match splitChar sep cs with
    | [] => [[]]
    | t :: ts => if c = sep then [] :: t :: ts else (c :: t) :: ts

/-- Character class used by Go `strings.TrimSpace` (ASCII white space). -/
def goIsSpace (c : Char) : Bool :=
  c == ' ' || c == '\t' || c == '\n' || c == '\x0b' || c == '\x0c' || c == '\r'

/-- Go `strings.TrimSpace`. -/
def trimSpace (l : List Char) : List Char :=
  ((l.dropWhile goIsSpace).reverse.dropWhile goIsSpace).reverse

/-- Go `strings.HasPrefix(s, ".")`. -/
def dotLeading : List Char → Bool
  | '.' :: _ => true
  | _ => false

/-- Go `filepath.Join` restricted to the shapes produced by `filepath.Walk`
starting from `"."`: joining onto `"."` drops the `"."` component. -/
def goJoin (pre name : List Char) : List Char :=
  if pre = gs "." then name else pre ++ '/' :: name

/-- Go `filepath.Ext`: the suffix of the final path element starting at its
final dot, or the empty string if the final element has no dot. -/
def goExt (p : List Char) : List Char :=
  let seg := (p.reverse).takeWhile (fun c => c ≠ '/')
  if (seg.dropWhile (fun c => c ≠ '.')) = [] then []
  else '.' :: (seg.takeWhile (fun c => c ≠ '.')).reverse

/-- A watch snapshot: relative file path mapped to its modification time
(`map[string]time.Time` in the source, embedded as an association list whose
keys are distinct). -/
abbrev Snap := List (List Char × Nat)

/-- Go map read `old[k]`: first (and with distinct keys, only) binding. -/
def lookupKey (k : List Char) : Snap → Option Nat
  | [] => none
  | (k2, v) :: rest => if k2 = k then some v else lookupKey k rest

/-- The keys of a snapshot are distinct, as they are for a Go map. -/
abbrev nodupKeys (s : Snap) : Prop := (s.map Prod.fst).Nodup

/-- watcher.changed (both copies in the source have the same body):
`true` when the maps have different sizes, or some key of `now` is missing
from `old` or bound to a different time. -/
def changed (old now : Snap) : Bool :=
  if old.length ≠ now.length then true
  else
    now.any fun kv =>
      match lookupKey kv.1 old with
      | none => true
      | some ov => ov ≠ kv.2

/-- Normalisation applied by `ParseExts` to one trimmed token: a leading dot
is added when missing. -/
def normTok (p : List Char) : List Char :=
  if dotLeading p then p else '.' :: p

/-- One iteration of the loop of ParseExts: trim the token, drop it when
empty, otherwise normalise it and insert it into the accumulated map
(modelled as append-if-absent, preserving the set of keys). -/
def parseStep (acc : List (List Char)) (p : List Char) : List (List Char) :=
  let q := trimSpace p
  if q = [] then acc
  else if normTok q ∈ acc then acc else acc ++ [normTok q]

/-- watcher.ParseExts / parseExts: split the comma-separated list and fold
the per-token step over it. -/
def ParseExts (s : List Char) : List (List Char) :=
  (splitChar ',' s).foldl parseStep []

/-- A directory tree, as observed by `filepath.Walk`: regular files carry a
modification time, directories carry their children. -/
inductive FsEntry where
  | file (name : List Char) (mtime : Nat)
  | dir (name : List Char) (children : List FsEntry)

/-- The directory-skipping test of watcher.scanFiles: with `ignoreVcs` the
names `.git`, `.hg`, `.svn` are skipped, and independently every hidden name
(leading dot, except the root `"."` itself) is skipped. -/
def skipDir (iv : Bool) (base : List Char) : Bool :=
  (iv && (base = gs ".git" || base = gs ".hg" || base = gs ".svn")) ||
  (dotLeading base && base ≠ gs ".")

/-- The walk of watcher.scanFiles below the root: files whose extension is in
`exts` are recorded with their modification time; directories failing
`skipDir` are not descended into. -/
def scanList (iv : Bool) (exts : List (List Char)) :
    List Char → List FsEntry → Snap
  | _, [] => []
  | pre, .file n m :: es =>
      (if goExt (goJoin pre n) ∈ exts then [(goJoin pre n, m)] else []) ++
        scanList iv exts pre es
  | pre, .dir n cs :: es =>
      (if skipDir iv n then [] else scanList iv exts (goJoin pre n) cs) ++
        scanList iv exts pre es

/-- watcher.scanFiles: `filepath.Walk` visits the root directory itself first
(subject to the same skip test), then its children. -/
def scanFiles (root : List Char) (ts : List FsEntry) (exts : List (List Char))
    (iv : Bool) : Snap :=
  if skipDir iv root then [] else scanList iv exts root ts

/-- Specification-side enumeration of every regular file in a tree, tagged
with whether it lies under a directory whose base name starts with a dot.
Used to state the claim that `scanFiles` keeps exactly the unhidden files
with a watched extension. -/
def allFilesList : List Char → List FsEntry → List (List Char × Nat × Bool)
  | _, [] => []
  | pre, .file n m :: es => (goJoin pre n, m, false) :: allFilesList pre es
  | pre, .dir n cs :: es =>
      ((allFilesList (goJoin pre n) cs).map
          fun x => (x.1, x.2.1, x.2.2 || dotLeading n)) ++
        allFilesList pre es

/-- Specification-side filter: keep the files that are not under a hidden
directory and whose extension is watched. -/
def visFilter (exts : List (List Char)) (l : List (List Char × Nat × Bool)) :
    Snap :=
  l.filterMap fun x =>
    if x.2.2 = false ∧ goExt x.1 ∈ exts then some (x.1, x.2.1) else none

/-- Well-formedness of a tree as produced by a real filesystem walk: no
directory below the root is named `"."`. -/
def wfNames : List FsEntry → Bool
  | [] => true
  | .file _ _ :: es => wfNames es
  | .dir n cs :: es => (n ≠ gs "." : Bool) && wfNames cs && wfNames es

/-- Return values of a `filepath.WalkFunc`. -/
inductive WalkRet where
  | nilRet
  | skipDirRet
  | errRet (msg : String)

/-- The walk callback of watcher.scanFiles, including its error branch: any
reported error (`err != nil`) makes the callback return `nil`, which tells
`filepath.Walk` to continue (comment in the source: skip files we cannot
stat). -/
def scanWalkFn (errArg : Option String) (isDir : Bool) (base : List Char)
    (iv : Bool) : WalkRet :=
  match errArg with
  | some _ => .nilRet
  | none =>
    if isDir then (if skipDir iv base then .skipDirRet else .nilRet)
    else .nilRet

/-- The error returned by `filepath.Walk` when statting the root fails:
Go's `Walk` passes the root error to the callback and returns whatever the
callback returns (`SkipDir` mapped to `nil`). -/
def walkError (rootErr : Option String) (iv : Bool) : Option String :=
  match rootErr with
  | some e =>
    match scanWalkFn (some e) false [] iv with
    | .errRet m => some m
    | _ => none
  | none => none

/-- watcher.scanFiles including its error result: the snapshot together with
the error propagated out of `filepath.Walk`. -/
def scanFilesRun (rootErr : Option String) (ts : List FsEntry)
    (exts : List (List Char)) (iv : Bool) : Snap × Option String :=
  match rootErr with
  | some e => ([], walkError (some e) iv)
  | none => (scanFiles (gs ".") ts exts iv, none)

/-- The initial-scan step of watcher.Start: a non-nil scan error is wrapped
as an initial scan error and aborts; otherwise the snapshot is adopted. -/
def watcherStartInit (rootErr : Option String) (ts : List FsEntry)
    (exts : List (List Char)) (iv : Bool) : Except String Snap :=
  match scanFilesRun rootErr ts exts iv with
  | (snap, none) => .ok snap
  | (_, some e) => .error ("initial scan error: " ++ e)

/-- The four-argument watcher constructor (`watcher.New` taking interval,
extensions, ignoreVcs, verbose): it stores its arguments unchanged.
The interval is in milliseconds. -/
structure Watcher where
  Interval : Int
  Exts : List (List Char)
  IgnoreVcs : Bool
  Verbose : Bool

/-- watcher.New (four-argument form). -/
def watcherNew (interval : Int) (exts : List (List Char))
    (ignoreVcs verbose : Bool) : Watcher :=
  { Interval := interval, Exts := exts, IgnoreVcs := ignoreVcs,
    Verbose := verbose }

/-- The option record of the second watcher variant (`watcher.Options`).
The interval is in milliseconds. -/
structure Options where
  Root : List Char
  Extensions : List Char
  IntervalMs : Int
  Verbose : Bool
  RunCommand : List Char

/-- watcher.New (Options form): an empty root defaults to `"."` and a
non-positive interval defaults to 500 ms; the result is the option record
stored in the constructed watcher. -/
def watcherNewOptions (opts : Options) : Options :=
  { opts with
    Root := if opts.Root = [] then gs "." else opts.Root,
    IntervalMs := if opts.IntervalMs ≤ 0 then 500 else opts.IntervalMs }

/-- Outcome of one tick of `Watcher.Run`'s select loop. -/
inductive RunTickResult where
  | continueWith (snap : Snap)
  | fatal (msg : String)

/-- One timer tick of `Watcher.Run` (Options variant): when the fresh scan
differs from the baseline the runner is stopped and restarted; a restart
failure makes `Run` return the wrapped error, ending the loop. -/
def runTick (mtimes newTimes : Snap) (restartOk : Bool) : RunTickResult :=
  if changed mtimes newTimes then
    if restartOk then .continueWith newTimes
    else .fatal "failed to restart command"
  else .continueWith mtimes

/-- Outcome of one restart notification in the `main` control loop. -/
inductive MainStep where
  | continueLoop (diag : Option String)
  | exitLoop

/-- The restart branch of the select loop in `cmd/goblip/main.go`: the child
is stopped and restarted; a restart failure is printed to stderr and the
loop continues either way. -/
def mainRestartStep (restartOk : Bool) : MainStep :=
  .continueLoop (if restartOk then none else some "failed to restart command")

/-- Startup of `main`: a failed initial watcher start or a failed initial
child launch exits the process with status 1; otherwise the loop runs. -/
def mainInit (scanOk startOk : Bool) : Option Nat :=
  if scanOk = false then some 1
  else if startOk = false then some 1
  else none

/-- A live child process: pid and process-group id. -/
structure Proc where
  pid : Nat
  pgid : Nat

/-- Go `strconv.Atoi` (overflow ignored): optional sign then digits. -/
def digitsVal (l : List Char) : Nat :=
  l.foldl (fun a c => a * 10 + (c.toNat - 48)) 0

/-- Go `strconv.Atoi` on the embedded strings. -/
def goAtoi : List Char → Option Int
  | [] => none
  | '-' :: ds =>
    if ds ≠ [] ∧ ds.all Char.isDigit then some (-(digitsVal ds : Int))
    else none
  | '+' :: ds =>
    if ds ≠ [] ∧ ds.all Char.isDigit then some ((digitsVal ds : Int))
    else none
  | ds =>
    if ds.all Char.isDigit then some ((digitsVal ds : Int)) else none

/-- The suffix of `s` after the first occurrence of `pat`
(`s[strings.Index(s, pat) + len(pat):]`), or `none` when `pat` does not
occur. -/
def afterFirst (pat : List Char) : List Char → Option (List Char)
  | [] => if pat = [] then some [] else none
  | c :: cs =>
    if pat.isPrefixOf (c :: cs) then some ((c :: cs).drop pat.length)
    else afterFirst pat cs

/-- The port patterns scanned by runner.extractPort, in source order. -/
def portPatterns : List (List Char) :=
  [gs ":8080", gs "PORT=", gs "-p ", gs "--port="]

/-- runner.extractPort's scan over the pattern list: for the first pattern
occurring in the command string whose following token (up to a space, with a
leading colon removed) parses as a number, that number is returned; when no
pattern yields a parseable number the default 8080 is returned. -/
def extractPortScan (cmdStr : List Char) : List (List Char) → Int
  | [] => 8080
  | pat :: rest =>
    match afterFirst pat cmdStr with
    | none => extractPortScan cmdStr rest
    | some tail =>
      let portStr := tail.takeWhile (fun c => c ≠ ' ')
      let portStr := match portStr with
        | ':' :: r => r
        | r => r
      match goAtoi portStr with
      | some p => p
      | none => extractPortScan cmdStr rest

/-- runner.extractPort. -/
def extractPort (cmdStr : List Char) : Int :=
  extractPortScan cmdStr portPatterns

/-- runner.waitForPortRelease's loop, with time made explicit: `busy i` is
whether the i-th TCP dial connects (port still occupied) and `cost i` is the
time the dial takes in milliseconds; each busy iteration additionally sleeps
100 ms.  The loop runs while less than 5000 ms have elapsed and returns the
elapsed time together with `true` when it exited because a dial failed (port
free). -/
def waitLoop (busy : Nat → Bool) (cost : Nat → Nat) (i elapsed : Nat) :
    Nat × Bool :=
  if elapsed < 5000 then
    if busy i then waitLoop busy cost (i + 1) (elapsed + cost i + 100)
    else (elapsed, true)
  else (elapsed, false)
termination_by 5000 - elapsed
decreasing_by omega

/-- runner.waitForPortRelease. -/
def waitForPortRelease (busy : Nat → Bool) (cost : Nat → Nat) : Nat × Bool :=
  waitLoop busy cost 0 0

/-- Observable actions of runner.Start, in order. -/
inductive StartEvent where
  | waitPort (port : Int)
  | spawn (cmdStr : List Char)

/-- runner.Start under the runner's mutex: with a live handle it returns the
explicit already-running error and changes nothing; otherwise it waits for
the extracted port, spawns the shell command, and stores the handle on
success (`launched` is the platform's answer to the spawn attempt). -/
def runnerStart (st : Option Proc) (cmdStr : List Char)
    (launched : Option Proc) :
    Except String Unit × Option Proc × List StartEvent :=
  match st with
  | some p => (.error "process already running", some p, [])
  | none =>
    match launched with
    | none => (.error "start failed", none, [.waitPort (extractPort cmdStr)])
    | some p =>
      (.ok (), some p, [.waitPort (extractPort cmdStr), .spawn cmdStr])

/-- Observable actions of runner.Stop, in order. -/
inductive StopEvent where
  | sigtermGroup (pgid : Nat)
  | waitGrace (ms : Nat)
  | sigkillGroup (pgid : Nat)
  | killProc (pid : Nat)
  | cleanupSleep (ms : Nat)

/-- The grace period of runner.Stop, in milliseconds (3 seconds in the
source). -/
def graceMs : Nat := 3000

/-- runner.Stop under the runner's mutex: a no-op without a live handle.
With one, on Windows the process is killed directly; otherwise SIGTERM goes
to the process group when `Getpgid` succeeded (`pgidOk`), the loop waits up
to `graceMs` for a natural exit (`exitsInGrace`), and on timeout SIGKILL
goes to the group (when the group id is non-zero) and then to the process.
The handle is cleared and a final 500 ms cleanup sleep runs in every live
case. -/
def runnerStop (st : Option Proc) (isWindows pgidOk exitsInGrace : Bool) :
    Option Proc × List StopEvent :=
  match st with
  | none => (none, [])
  | some p =>
    if isWindows then (none, [.killProc p.pid, .cleanupSleep 500])
    else
      let pgid := if pgidOk then p.pgid else 0
      (none,
        (if pgidOk then [.sigtermGroup pgid] else []) ++
        [.waitGrace graceMs] ++
        (if exitsInGrace then []
         else (if pgid ≠ 0 then [.sigkillGroup pgid] else []) ++
           [.killProc p.pid]) ++
        [.cleanupSleep 500])

/-- Number of live children tracked by a supervisor state. -/
def liveCount : Option Proc → Nat
  | none => 0
  | some _ => 1

/-- The sample tree of the ignore-rule property: `.git/config` next to
`src/main.go`. -/
def sampleTree : List FsEntry :=
  [.dir (gs ".git") [.file (gs "config") 1],
   .dir (gs "src") [.file (gs "main.go") 42]]

end Goblip

namespace Goblip

theorem runnerStop_clears (st : Option Proc) (w po ex : Bool) :
    (runnerStop st w po ex).1 = none := by
  cases st <;> cases w <;> simp [runnerStop]

/-- C1: calling Start while a live child exists launches nothing, returns
the explicit already-running error, and leaves the handle unchanged; in
every case the supervisor tracks at most one live child. -/
theorem C1_start_single_child :
    (∀ (p : Proc) (cmdStr : List Char) (launched : Option Proc),
        runnerStart (some p) cmdStr launched
          = (.error "process already running", some p, []))
  ∧ (∀ (st : Option Proc) (cmdStr : List Char) (launched : Option Proc),
        liveCount (runnerStart st cmdStr launched).2.1 ≤ 1) := by
  refine ⟨fun p c l => rfl, ?_⟩
  intro st c l
  cases st <;> cases l <;> simp [runnerStart, liveCount]

/-- C2: Stop on a live child that ignores SIGTERM sends SIGTERM to the
process group, waits the fixed grace period (3000 ms, inside the 500 ms to
3 s range), then sends SIGKILL to the group and then kills the process,
all before returning. -/
theorem C2_stop_forces_kill (p : Proc) (h : p.pgid ≠ 0) :
    runnerStop (some p) false true false
      = (none, [.sigtermGroup p.pgid, .waitGrace graceMs, .sigkillGroup p.pgid,
                .killProc p.pid, .cleanupSleep 500])
  ∧ 500 ≤ graceMs ∧ graceMs ≤ 3000 := by
  refine ⟨?_, by decide, by decide⟩
  simp [runnerStop, h]

/-- C2 witness: the kill sequence at a concrete process. -/
theorem C2_stop_forces_kill_witness :
    runnerStop (some ⟨1234, 1234⟩) false true false
      = (none, [.sigtermGroup 1234, .waitGrace graceMs, .sigkillGroup 1234,
                .killProc 1234, .cleanupSleep 500])
  ∧ 500 ≤ graceMs ∧ graceMs ≤ 3000 :=
  C2_stop_forces_kill ⟨1234, 1234⟩ (by decide)

/-- C3: Stop without a live child is a no-op that performs no action and
returns no error; Stop always clears the handle, so a second Stop is a
no-op and a subsequent Start is permitted. -/
theorem C3_stop_idempotent :
    (∀ w po ex, runnerStop none w po ex = (none, []))
  ∧ (∀ st w po ex, (runnerStop st w po ex).1 = none)
  ∧ (∀ st w po ex w2 po2 ex2,
        runnerStop (runnerStop st w po ex).1 w2 po2 ex2 = (none, []))
  ∧ (∀ st w po ex (cmdStr : List Char) (p : Proc),
        (runnerStart (runnerStop st w po ex).1 cmdStr (some p)).1 = .ok ()) := by
  refine ⟨fun w po ex => rfl, runnerStop_clears, ?_, ?_⟩
  · intro st w po ex w2 po2 ex2
    rw [runnerStop_clears]
    rfl
  · intro st w po ex c p
    rw [runnerStop_clears]
    rfl

/-- C7: the walk callback returns nil for every reported error, including
the stat failure of the root itself, so scanFiles never surfaces an error:
with an inaccessible root it yields an empty snapshot and no error, and the
initial-scan step of Start succeeds instead of reporting the failure.
Recurring (non-root) walks likewise never produce an error. -/
theorem C7_root_error_swallowed :
    scanFilesRun (some "open .: permission denied") sampleTree [gs ".go"] true
      = ([], none)
  ∧ watcherStartInit (some "open .: permission denied") sampleTree
      [gs ".go"] true = .ok []
  ∧ (∀ ts exts iv, (scanFilesRun none ts exts iv).2 = none) :=
  ⟨rfl, rfl, fun _ _ _ => rfl⟩

/-- C8 counterexample: in Watcher.Run, a tick that detects a change and then
fails to relaunch makes the loop return the wrapped error, terminating the
watch loop, contrary to the claim. -/
theorem C8_run_terminates_on_restart_failure :
    runTick [(gs "app.go", 5)] [(gs "app.go", 6)] false
      = .fatal "failed to restart command" := rfl

/-- C8 amended: in the main control loop a failed relaunch is only surfaced
as a diagnostic and the loop continues, and only the two initial failures
(first scan, first launch) abort the utility; but in Watcher.Run a failed
relaunch after a detected change terminates the loop with the wrapped
error. -/
theorem C8_restart_failure_policy :
    (∀ ok : Bool, ∃ d, mainRestartStep ok = .continueLoop d)
  ∧ mainRestartStep false = .continueLoop (some "failed to restart command")
  ∧ (∀ so : Bool, mainInit false so = some 1)
  ∧ mainInit true false = some 1
  ∧ mainInit true true = none
  ∧ (∀ A B : Snap, changed A B = true →
        runTick A B false = .fatal "failed to restart command") := by
  refine ⟨fun ok => ⟨_, rfl⟩, rfl, fun so => rfl, rfl, rfl, ?_⟩
  intro A B h
  simp [runTick, h]

/-- C8 witness: the terminating branch of Run at a concrete changed pair. -/
theorem C8_restart_failure_policy_witness :
    runTick [(gs "main.go", 1)] [(gs "main.go", 2)] false
      = .fatal "failed to restart command" :=
  C8_restart_failure_policy.2.2.2.2.2 _ _ (by decide)

/-- C9 counterexample: the four-argument watcher constructor stores a
non-positive interval unchanged; no 500 ms default is applied and the
resulting configuration does not have a positive poll interval. -/
theorem C9_four_arg_new_keeps_interval :
    (watcherNew 0 [gs ".go"] true false).Interval = 0
  ∧ ¬ 0 < (watcherNew 0 [gs ".go"] true false).Interval := by
  exact ⟨rfl, by decide⟩

/-- C9 amended: the Options-based constructor applies the 500 ms default to
an unset or non-positive interval, so its stored interval is always
positive; the four-argument constructor stores the interval unchanged. -/
theorem C9_interval_defaults :
    (∀ opts : Options, 0 < (watcherNewOptions opts).IntervalMs
        ∧ (opts.IntervalMs ≤ 0 → (watcherNewOptions opts).IntervalMs = 500))
  ∧ (∀ (i : Int) (e : List (List Char)) (v b : Bool),
        (watcherNew i e v b).Interval = i) := by
  refine ⟨?_, fun i e v b => rfl⟩
  intro opts
  constructor
  · by_cases h : opts.IntervalMs ≤ 0
    · simp [watcherNewOptions, h]
    · simp [watcherNewOptions, h]
      omega
  · intro h
    simp [watcherNewOptions, h]

/-- C9 witness: the default at a concrete zero interval. -/
theorem C9_interval_defaults_witness :
    (watcherNewOptions ⟨gs ".", gs ".go", 0, false, gs "go run ."⟩).IntervalMs
      = 500 :=
  (C9_interval_defaults.1 _).2 (by decide)

end Goblip

namespace Goblip

theorem waitLoop_timeout_ge (busy : Nat → Bool) (cost : Nat → Nat)
    (i elapsed : Nat) :
    (waitLoop busy cost i elapsed).2 = false →
    5000 ≤ (waitLoop busy cost i elapsed).1 := by
  induction i, elapsed using waitLoop.induct busy cost with
  | case1 i e hlt hb ih =>
    rw [waitLoop]
    simp only [if_pos hlt, if_pos hb]
    exact ih
  | case2 i e hlt hb =>
    rw [waitLoop]
    simp [hlt, hb]
  | case3 i e hge =>
    rw [waitLoop]
    simp only [if_neg hge]
    intro _
    omega

/-- C10: before launching, Start extracts a port from the command string —
scanning the patterns ":8080", "PORT=", "-p ", "--port=" and defaulting to
8080 when no pattern yields a parseable number — and then waits for that
port ahead of the spawn; the wait returns with the port still busy only
after at least 5000 ms have elapsed, so a launch can be delayed by up to
five seconds. -/
theorem C10_port_probe :
    extractPort (gs "go run .") = 8080
  ∧ extractPort (gs "go run . --port=3000") = 3000
  ∧ (∀ (cmdStr : List Char) (p : Proc),
        runnerStart none cmdStr (some p)
          = (.ok (), some p, [.waitPort (extractPort cmdStr), .spawn cmdStr]))
  ∧ (∀ busy cost, (waitForPortRelease busy cost).2 = false →
        5000 ≤ (waitForPortRelease busy cost).1)
  ∧ waitForPortRelease (fun _ => true) (fun _ => 100) = (5000, false) := by
  refine ⟨by decide, by decide, fun _ _ => rfl, ?_, ?_⟩
  · intro busy cost
    exact waitLoop_timeout_ge busy cost 0 0
  · simp [waitForPortRelease, waitLoop]

/-- C10 witness: a port that never frees delays Start by the full 5000 ms. -/
theorem C10_port_probe_witness :
    5000 ≤ (waitForPortRelease (fun _ => true) (fun _ => 100)).1 :=
  C10_port_probe.2.2.2.1 _ _ (by simp [waitForPortRelease, waitLoop])

theorem lookupKey_mem {k : List Char} {v : Nat} :
    ∀ {s : Snap}, lookupKey k s = some v → (k, v) ∈ s := by
  intro s
  induction s with
  | nil => intro h; cases h
  | cons kv rest ih =>
    obtain ⟨k2, v2⟩ := kv
    intro h
    rw [lookupKey] at h
    by_cases hk : k2 = k
    · rw [if_pos hk] at h
      injection h with h2
      subst hk
      subst h2
      exact List.mem_cons_self _ _
    · rw [if_neg hk] at h
      exact List.mem_cons_of_mem _ (ih h)

theorem mem_lookupKey {k : List Char} {v : Nat} :
    ∀ {s : Snap}, nodupKeys s → (k, v) ∈ s → lookupKey k s = some v := by
  intro s
  induction s with
  | nil => intro _ h; cases h
  | cons kv rest ih =>
    obtain ⟨k2, v2⟩ := kv
    intro hn hm
    rw [nodupKeys, List.map_cons, List.nodup_cons] at hn
    obtain ⟨hk2, hrest⟩ := hn
    rw [lookupKey]
    rcases List.mem_cons.mp hm with he | hm2
    · rw [Prod.mk.injEq] at he
      obtain ⟨h1, h2⟩ := he
      subst h1
      subst h2
      simp
    · have hne : k2 ≠ k := by
        intro hkk
        subst hkk
        exact hk2 (List.mem_map.mpr ⟨(k2, v), hm2, rfl⟩)
      rw [if_neg hne]
      exact ih hrest hm2

theorem changed_true_iff (old now : Snap) :
    changed old now = true ↔
      old.length ≠ now.length ∨ ∃ kv ∈ now, lookupKey kv.1 old ≠ some kv.2 := by
  unfold changed
  by_cases h : old.length ≠ now.length
  · simp [h]
  · rw [if_neg h, List.any_eq_true]
    simp only [h, false_or]
    constructor
    · rintro ⟨x, hx, hfx⟩
      refine ⟨x, hx, ?_⟩
      cases hlk : lookupKey x.1 old with
      | none => simp [hlk]
      | some ov =>
        rw [hlk] at hfx
        simp only [decide_eq_true_eq] at hfx
        simp [hlk, hfx]
    · rintro ⟨x, hx, hne⟩
      refine ⟨x, hx, ?_⟩
      cases hlk : lookupKey x.1 old with
      | none => simp
      | some ov =>
        rw [hlk] at hne
        simp only [decide_eq_true_eq]
        intro he
        exact hne (by rw [he])

/-- C4: changed(old, new) is true exactly when the snapshots differ in
length, or some path of new is absent from old, or some path shared by both
carries different timestamps; and changed(A, A) is false for every
snapshot A. -/
theorem C4_diff_characterization :
    (∀ old now : Snap, nodupKeys old → nodupKeys now →
        (changed old now = true ↔
          old.length ≠ now.length
          ∨ (∃ p t, (p, t) ∈ now ∧ lookupKey p old = none)
          ∨ (∃ p t t2, (p, t) ∈ now ∧ (p, t2) ∈ old ∧ t ≠ t2)))
  ∧ (∀ A : Snap, nodupKeys A → changed A A = false) := by
  constructor
  · intro old now hold hnow
    rw [changed_true_iff]
    constructor
    · rintro (h | ⟨kv, hkv, hne⟩)
      · exact Or.inl h
      · cases hlk : lookupKey kv.1 old with
        | none => exact Or.inr (Or.inl ⟨kv.1, kv.2, hkv, hlk⟩)
        | some t2 =>
          refine Or.inr (Or.inr ⟨kv.1, kv.2, t2, hkv, lookupKey_mem hlk, ?_⟩)
          intro he
          exact hne (by rw [hlk, he])
    · rintro (h | ⟨p, t, hmem, hnone⟩ | ⟨p, t, t2, hnow2, hold2, hne⟩)
      · exact Or.inl h
      · exact Or.inr ⟨(p, t), hmem, by simp [hnone]⟩
      · refine Or.inr ⟨(p, t), hnow2, ?_⟩
        rw [mem_lookupKey hold hold2]
        intro he
        injection he with he2
        exact hne he2.symm
  · intro A hA
    unfold changed
    rw [if_neg (by simp), List.any_eq_false]
    intro x hx
    rw [mem_lookupKey hA hx]
    simp

/-- C4 witness: a one-file snapshot whose timestamp moved is reported as
changed, and a snapshot never differs from itself. -/
theorem C4_diff_characterization_witness :
    changed [(gs "a.go", 1)] [(gs "a.go", 2)] = true
  ∧ changed [(gs "a.go", 1)] [(gs "a.go", 1)] = false :=
  ⟨(C4_diff_characterization.1 _ _ (by decide) (by decide)).mpr
      (Or.inr (Or.inr ⟨gs "a.go", 2, 1, by decide, by decide, by decide⟩)),
    C4_diff_characterization.2 _ (by decide)⟩

end Goblip

namespace Goblip

theorem parseStep_mem (acc : List (List Char)) (p x : List Char) :
    x ∈ parseStep acc p ↔
      x ∈ acc ∨ (trimSpace p ≠ [] ∧ x = normTok (trimSpace p)) := by
  unfold parseStep
  by_cases h1 : trimSpace p = []
  · simp [h1]
  · by_cases h2 : normTok (trimSpace p) ∈ acc
    · rw [if_neg h1, if_pos h2]
      constructor
      · exact fun h => Or.inl h
      · rintro (h | ⟨_, rfl⟩)
        · exact h
        · exact h2
    · rw [if_neg h1, if_neg h2, List.mem_append, List.mem_singleton]
      constructor
      · rintro (h | rfl)
        · exact Or.inl h
        · exact Or.inr ⟨h1, rfl⟩
      · rintro (h | ⟨_, rfl⟩)
        · exact Or.inl h
        · exact Or.inr rfl

theorem foldl_parseStep_mem (ps : List (List Char)) :
    ∀ (acc : List (List Char)) (x : List Char),
      x ∈ ps.foldl parseStep acc ↔
        x ∈ acc ∨ ∃ p ∈ ps, trimSpace p ≠ [] ∧ x = normTok (trimSpace p) := by
  induction ps with
  | nil =>
    intro acc x
    simp
  | cons p ps ih =>
    intro acc x
    rw [List.foldl_cons, ih, parseStep_mem]
    constructor
    · rintro ((h | ⟨hne, rfl⟩) | ⟨q, hq, hqne, rfl⟩)
      · exact Or.inl h
      · exact Or.inr ⟨p, List.mem_cons_self _ _, hne, rfl⟩
      · exact Or.inr ⟨q, List.mem_cons_of_mem _ hq, hqne, rfl⟩
    · rintro (h | ⟨q, hq, hqne, rfl⟩)
      · exact Or.inl (Or.inl h)
      · rcases List.mem_cons.mp hq with rfl | hq2
        · exact Or.inl (Or.inr ⟨hqne, rfl⟩)
        · exact Or.inr ⟨q, hq2, hqne, rfl⟩

theorem foldl_parseStep_nodup (ps : List (List Char)) :
    ∀ acc : List (List Char), acc.Nodup → (ps.foldl parseStep acc).Nodup := by
  induction ps with
  | nil =>
    intro acc h
    simpa using h
  | cons p ps ih =>
    intro acc h
    rw [List.foldl_cons]
    apply ih
    unfold parseStep
    by_cases h1 : trimSpace p = []
    · simpa [h1] using h
    · by_cases h2 : normTok (trimSpace p) ∈ acc
      · simpa [h1, h2] using h
      · rw [if_neg h1, if_neg h2]
        simp [List.nodup_append, h, h2]

/-- C6: membership in the parsed extension set is exactly: being the
dot-normalisation of some comma-separated token that is nonempty after
trimming; the result has set semantics (no duplicates); and the concrete
input ".go, js ,,.CSS" yields exactly {".go", ".js", ".CSS"}. -/
theorem C6_parse_extensions :
    (∀ s x : List Char,
        x ∈ ParseExts s ↔
          ∃ p ∈ splitChar ',' s, trimSpace p ≠ [] ∧ x = normTok (trimSpace p))
  ∧ (∀ s : List Char, (ParseExts s).Nodup)
  ∧ ParseExts (gs ".go, js ,,.CSS") = [gs ".go", gs ".js", gs ".CSS"] := by
  refine ⟨?_, ?_, by decide⟩
  · intro s x
    rw [ParseExts, foldl_parseStep_mem]
    simp
  · intro s
    exact foldl_parseStep_nodup _ _ List.nodup_nil

end Goblip

namespace Goblip

theorem vcs_dotLeading {n : List Char}
    (h : (n = gs ".git" || n = gs ".hg" || n = gs ".svn" : Bool) = true) :
    dotLeading n = true := by
  simp only [Bool.or_eq_true, decide_eq_true_eq] at h
  rcases h with (rfl | rfl) | rfl <;> decide

theorem skipDir_eq_dotLeading {n : List Char} (h : n ≠ gs ".") (iv : Bool) :
    skipDir iv n = dotLeading n := by
  unfold skipDir
  have hne : (n ≠ gs "." : Bool) = true := by simpa using h
  rw [hne, Bool.and_true]
  cases hd : dotLeading n with
  | false =>
    have hv : (n = gs ".git" || n = gs ".hg" || n = gs ".svn" : Bool) = false := by
      cases hvv : (n = gs ".git" || n = gs ".hg" || n = gs ".svn" : Bool) with
      | false => rfl
      | true =>
        rw [vcs_dotLeading hvv] at hd
        cases hd
    rw [hv, Bool.and_false, Bool.or_false]
  | true => simp

theorem visFilter_append (exts : List (List Char))
    (l1 l2 : List (List Char × Nat × Bool)) :
    visFilter exts (l1 ++ l2) = visFilter exts l1 ++ visFilter exts l2 := by
  unfold visFilter
  exact List.filterMap_append l1 l2 _

theorem visFilter_hidden (exts : List (List Char))
    (l : List (List Char × Nat × Bool)) :
    visFilter exts (l.map fun x => (x.1, x.2.1, true)) = [] := by
  unfold visFilter
  rw [List.filterMap_map, List.filterMap_eq_nil_iff]
  intro a _
  simp [Function.comp]

theorem visFilter_cons_file (exts : List (List Char)) (p : List Char) (m : Nat)
    (l : List (List Char × Nat × Bool)) :
    visFilter exts ((p, m, false) :: l) =
      (if goExt p ∈ exts then [(p, m)] else []) ++ visFilter exts l := by
  unfold visFilter
  rw [List.filterMap_cons]
  by_cases h : goExt p ∈ exts
  · simp [h]
  · simp [h]

theorem scanList_eq_visFilter (iv : Bool) (exts : List (List Char))
    (pre : List Char) (ts : List FsEntry) :
    wfNames ts = true →
    scanList iv exts pre ts = visFilter exts (allFilesList pre ts) := by
  induction pre, ts using scanList.induct iv exts with
  | case1 pre =>
    intro _
    simp [scanList, allFilesList, visFilter]
  | case2 pre n m es ih =>
    intro hwf
    rw [wfNames] at hwf
    simp only [scanList, allFilesList]
    rw [visFilter_cons_file, ih hwf]
  | case3 pre n cs es ih1 ih2 =>
    intro hwf
    simp only [wfNames, Bool.and_eq_true, decide_eq_true_eq] at hwf
    obtain ⟨⟨hne, hcs⟩, hes⟩ := hwf
    simp only [scanList, allFilesList]
    rw [visFilter_append, ih2 hes, skipDir_eq_dotLeading hne]
    cases hd : dotLeading n with
    | true =>
      simp only [hd, Bool.or_true, if_true]
      rw [visFilter_hidden]
    | false =>
      simp only [hd, Bool.or_false, Bool.false_eq_true, if_false]
      have hmap : ((allFilesList (goJoin pre n) cs).map
          fun x => (x.1, x.2.1, x.2.2)) = allFilesList (goJoin pre n) cs := by
        rw [show (fun x : List Char × Nat × Bool => (x.1, x.2.1, x.2.2)) = id
            from rfl, List.map_id]
      rw [hmap, ih1 hcs]

theorem skipDir_root_dot (iv : Bool) : skipDir iv (gs ".") = false := by
  cases iv <;> decide

/-- C5: with the root "." and a well-formed tree, the snapshot keys of a
scan are exactly the regular files whose extension is watched and which do
not lie under a directory whose base name starts with a dot, each carrying
its modification time (directories are never keys, as only files are
enumerated); concretely, a tree holding ".git/config" and "src/main.go"
scanned for {".go"} with VCS-ignore on yields exactly {"src/main.go"}. -/
theorem C5_scan_exact :
    (∀ (iv : Bool) (exts : List (List Char)) (ts : List FsEntry)
        (p : List Char) (m : Nat), wfNames ts = true →
        ((p, m) ∈ scanFiles (gs ".") ts exts iv ↔
          (p, m, false) ∈ allFilesList (gs ".") ts ∧ goExt p ∈ exts))
  ∧ scanFiles (gs ".") sampleTree [gs ".go"] true = [(gs "src/main.go", 42)] := by
  constructor
  · intro iv exts ts p m hwf
    unfold scanFiles
    rw [skipDir_root_dot]
    simp only [Bool.false_eq_true, if_false]
    rw [scanList_eq_visFilter iv exts _ ts hwf]
    unfold visFilter
    rw [List.mem_filterMap]
    constructor
    · rintro ⟨⟨x1, x2, x3⟩, hx, hfx⟩
      dsimp only at hfx
      by_cases hc : x3 = false ∧ goExt x1 ∈ exts
      · rw [if_pos hc] at hfx
        injection hfx with heq
        rw [Prod.mk.injEq] at heq
        obtain ⟨h1, h2⟩ := heq
        subst h1
        subst h2
        obtain ⟨h3, hext⟩ := hc
        subst h3
        exact ⟨hx, hext⟩
      · rw [if_neg hc] at hfx
        cases hfx
    · rintro ⟨hmem, hext⟩
      exact ⟨(p, m, false), hmem, by simp [hext]⟩
  · simp [scanFiles, scanList, sampleTree, skipDir, dotLeading, goJoin,
      goExt, gs]

/-- C5 witness: the characterisation applied to the sample tree at the file
"src/main.go". -/
theorem C5_scan_exact_witness :
    (gs "src/main.go", 42) ∈ scanFiles (gs ".") sampleTree [gs ".go"] true ↔
      ((gs "src/main.go", 42, false) ∈ allFilesList (gs ".") sampleTree ∧
        goExt (gs "src/main.go") ∈ [gs ".go"]) :=
  C5_scan_exact.1 true [gs ".go"] sampleTree (gs "src/main.go") 42
    (by simp only [sampleTree, wfNames]; decide)

end Goblip
